import Mathlib

/-
Verification of aiohttp/multidict.py (pure-Python reference implementation).

The entry storage `self._items` of a map is modelled as a `List (K × V)`.
All mutating methods of the source mutate that list in place (append,
extend, clear, del items[i]); they are modelled as functions from the old
storage to the new storage.  Failures (KeyError / TypeError / ValueError)
are modelled with `Option` / an explicit error component.

Views (`_ViewBase` and its subclasses) are special: for `getall=True` the
source sets `items_to_use = items`, i.e. the view's `_items` attribute is
the very same list object as the map's storage, while `_keys` is a fresh
list; for `getall=False` both are freshly built filtered lists.  Since the
map only ever mutates its storage list in place, a view's `_items` is an
alias of the live storage exactly in the `getall=True` case.  This is
modelled by `ItemsRef`: `live` dereferences to the map's current storage,
`snap l` dereferences to the private list `l` taken at creation time.
-/

namespace Multidict

/-- Model of Python `str.upper` (as used on header keys): character-wise
ASCII upper-casing of the string's characters. -/
def upper (s : String) : String := ⟨s.data.map Char.toUpper⟩

/-- Model of Python `str.lower`: character-wise ASCII lower-casing. -/
def lower (s : String) : String := ⟨s.data.map Char.toLower⟩

/-- Python error kinds raised by the source (`TypeError` is the spec's
InvalidArgument, `ValueError` is a tuple-unpacking failure, `KeyError` is
the spec's KeyNotFound). -/
inductive PyErr where
  | typeError
  | valueError
  | keyError
deriving DecidableEq

/-- The list comprehension `[v for k, v in self._items if k == key]` from
`_MultiDict.getall`. -/
def getallList {K V : Type} [DecidableEq K] (items : List (K × V)) (key : K) : List V :=
  (items.filter (fun e => decide (e.1 = key))).map Prod.snd

/-- Source `_MultiDict.getall` called without a default: `some res` when the
comprehension is non-empty, `none` for the raised `KeyError`. -/
def getall {K V : Type} [DecidableEq K] (items : List (K × V)) (key : K) : Option (List V) :=
  match getallList items key with
  | [] => none
  | v :: vs => some (v :: vs)

/-- Source `_MultiDict.getone` / `__getitem__` / `get` scan: first value
stored for the key, `none` when the key is absent. -/
def getone {K V : Type} [DecidableEq K] (items : List (K × V)) (key : K) : Option V :=
  match items with
  | [] => none
  | e :: rest => if e.1 = key then some e.2 else getone rest key

/-- Source `_MultiDict.__contains__`: linear scan for a matching key. -/
def containsKey {K V : Type} [DecidableEq K] (items : List (K × V)) (key : K) : Bool :=
  items.any (fun e => decide (e.1 = key))

/-- Source `_MultiDict.__len__`: `len(self._items)`, duplicates included. -/
def mdLen {K V : Type} (items : List (K × V)) : Nat := items.length

/-- The `_items` attribute of `_ViewBase`: either the very list object of
the map (the `items_to_use = items` branch taken when `getall` is true) or
a private filtered list built at creation time. -/
inductive ItemsRef (K V : Type) where
  | live : ItemsRef K V
  | snap : List (K × V) → ItemsRef K V

/-- Dereference an `ItemsRef` against the map's current storage. -/
def ItemsRef.deref {K V : Type} : ItemsRef K V → List (K × V) → List (K × V)
  | .live, store => store
  | .snap l, _ => l

/-- State of a `_ViewBase` object: `_keys` (always a fresh list) and
`_items` (alias or private copy). -/
structure ViewBase (K V : Type) where
  viewKeys : List K
  viewItems : ItemsRef K V

/-- The `getall=False` loop of `_ViewBase.__init__`: keep the first entry
per key, tracking the set of keys already seen. -/
def filterFirst {K V : Type} [DecidableEq K] (seen : List K) : List (K × V) → List (K × V)
  | [] => []
  | e :: rest =>
    if e.1 ∈ seen then filterFirst seen rest
    else e :: filterFirst (e.1 :: seen) rest

/-- Source `_ViewBase.__init__`: with `getall=True`, `_keys` is the fresh
list `[item[0] for item in items]` and `_items` aliases the given list;
with `getall=False`, both are built by the first-occurrence filter (there
`_keys` is exactly the keys of the kept entries). -/
def mkView {K V : Type} [DecidableEq K] (items : List (K × V)) (ga : Bool) : ViewBase K V :=
  if ga then ⟨items.map Prod.fst, .live⟩
  else
    let use := filterFirst [] items
    ⟨use.map Prod.fst, .snap use⟩

/-- Source `_ViewBase.__len__`: `len(self._items)`. -/
def viewLen {K V : Type} (v : ViewBase K V) (store : List (K × V)) : Nat :=
  (v.viewItems.deref store).length

/-- Source `_ItemsView.__iter__`: yields from `self._items`. -/
def itemsIter {K V : Type} (v : ViewBase K V) (store : List (K × V)) : List (K × V) :=
  v.viewItems.deref store

/-- Source `_ItemsView.__contains__`: `item in self._items`. -/
def itemsContains {K V : Type} [DecidableEq K] [DecidableEq V]
    (v : ViewBase K V) (store : List (K × V)) (item : K × V) : Bool :=
  (v.viewItems.deref store).contains item

/-- Source `_ValuesView.__iter__`: yields `item[1]` from `self._items`. -/
def valuesIter {K V : Type} (v : ViewBase K V) (store : List (K × V)) : List V :=
  (v.viewItems.deref store).map Prod.snd

/-- Source `_ValuesView.__contains__`: scan of `self._items` comparing the
second components. -/
def valuesContains {K V : Type} [DecidableEq V]
    (v : ViewBase K V) (store : List (K × V)) (x : V) : Bool :=
  (v.viewItems.deref store).any (fun e => decide (e.2 = x))

/-- Source `_KeysView.__iter__`: yields from `self._keys` (the fresh list). -/
def keysIter {K V : Type} (v : ViewBase K V) : List K := v.viewKeys

/-- Source `_KeysView.__contains__`: `key in self._keys`. -/
def keysContains {K V : Type} [DecidableEq K] (v : ViewBase K V) (key : K) : Bool :=
  v.viewKeys.contains key

/-- Source `_MultiDict.__iter__`: `iter(self.keys())`, and `keys()` defaults
to `getall=True`, so this is the keys-view key list of an all-entries view. -/
def mdIter {K V : Type} [DecidableEq K] (items : List (K × V)) : List K :=
  keysIter (mkView items true)

/-- Source `MutableMultiDictMixin.add`: `self._items.append((key, value))`. -/
def add {K V : Type} (items : List (K × V)) (key : K) (value : V) : List (K × V) :=
  items ++ [(key, value)]

/-- Source `MutableMultiDictMixin.clear`: `self._items.clear()`. -/
def clearItems {K V : Type} (_items : List (K × V)) : List (K × V) := []

/-- Source `MutableMultiDictMixin.__delitem__` loop, which walks the indices
from `len(items) - 1` down to `0` and deletes every matching index in place:
processing the tail (higher indices) first, keep non-matching entries in
order and record whether any index matched. -/
def delAll {K V : Type} [DecidableEq K] (key : K) : List (K × V) → List (K × V) × Bool
  | [] => ([], false)
  | e :: rest =>
    let r := delAll key rest
    if e.1 = key then (r.1, true) else (e :: r.1, r.2)

/-- Source `MutableMultiDictMixin.__delitem__`: run the deletion loop, raise
`KeyError` (here `none`) when no index matched. -/
def delitem {K V : Type} [DecidableEq K] (items : List (K × V)) (key : K) :
    Option (List (K × V)) :=
  let r := delAll key items
  if r.2 then some r.1 else none

/-- Source `MutableMultiDictMixin.__setitem__`: `del self[key]` with the
`KeyError` swallowed (the loop leaves the list as it left it either way),
then `self._items.append((key, value))`. -/
def setitem {K V : Type} [DecidableEq K] (items : List (K × V)) (key : K) (value : V) :
    List (K × V) :=
  (delAll key items).1 ++ [(key, value)]

/-- Source `MutableMultiDictMixin.setdefault`: scan `self._items` for the
key (the same scan as `getone`); on a hit return the stored value and leave
the storage alone, otherwise append `(key, default)` as given — note the
raw `key` is appended, with no case folding anywhere in this method. -/
def setdefault {K V : Type} [DecidableEq K] (items : List (K × V)) (key : K) (default : V) :
    List (K × V) × V :=
  match getone items key with
  | some v => (items, v)
  | none => (items ++ [(key, default)], default)

/-- Source `MutableMultiDictMixin.extend` over a single positional sequence
argument (no kwargs): `for key, value in items: self.add(key, value)`.
Each element of the input is a Python sequence, modelled as a `List α`;
tuple unpacking `key, value = item` succeeds exactly for length-2 items and
raises `ValueError` otherwise, leaving the entries added so far in place. -/
def extendSeq {α : Type} (st : List (α × α)) : List (List α) → List (α × α) × Option PyErr
  | [] => (st, none)
  | item :: rest =>
    match item with
    | [k, v] => extendSeq (add st k v) rest
    | _ => (st, some .valueError)

/-- Source `_CaseInsensitiveMultiDict._fill`: append `(key.upper(), value)`
for every input pair. -/
def ciFill {V : Type} (ipairs : List (String × V)) : List (String × V) :=
  ipairs.map (fun e => (upper e.1, e.2))

/-- Source `_CaseInsensitiveMultiDict.getall`: `super().getall(key.upper())`. -/
def ciGetall {V : Type} (items : List (String × V)) (key : String) : Option (List V) :=
  getall items (upper key)

/-- Source `_CaseInsensitiveMultiDict.getone`: `super().getone(key.upper())`. -/
def ciGetone {V : Type} (items : List (String × V)) (key : String) : Option V :=
  getone items (upper key)

/-- Source `_CaseInsensitiveMutableMultiDict.add`: `super().add(key.upper(), value)`. -/
def ciAdd {V : Type} (items : List (String × V)) (key : String) (value : V) :
    List (String × V) :=
  add items (upper key) value

/-- Source `_CaseInsensitiveMutableMultiDict.__setitem__`:
`super().__setitem__(key.upper(), value)`. -/
def ciSetitem {V : Type} (items : List (String × V)) (key : String) (value : V) :
    List (String × V) :=
  setitem items (upper key) value

/-- Source `_CaseInsensitiveMutableMultiDict.__delitem__`:
`super().__delitem__(key.upper())`. -/
def ciDelitem {V : Type} (items : List (String × V)) (key : String) :
    Option (List (String × V)) :=
  delitem items (upper key)

/-- Case-insensitive storage invariant of the spec: every key physically
stored equals its own folded form. -/
def allFolded {V : Type} (items : List (String × V)) : Bool :=
  items.all (fun e => decide (e.1 = upper e.1))

/-- A member of the multidict family: its concrete class (`ci` records
whether it is one of the case-insensitive classes) and its `_items` storage. -/
structure MD (K V : Type) where
  ci : Bool
  entries : List (K × V)

/-- The right-hand operand of `_MultiDict.__eq__`: another family member,
an arbitrary mapping (given by its `get` method), or a non-mapping. -/
inductive Operand (K V : Type) where
  | md : MD K V → Operand K V
  | mapping : (K → Option V) → Operand K V
  | notMapping : Operand K V

/-- The per-pair check of the mapping branch of `__eq__`:
`nv = other.get(k, _marker); v != nv` — `none` models the `_marker` miss,
which compares unequal to every stored value. -/
def mappingGetCheck {K V : Type} [DecidableEq V] (g : K → Option V) (e : K × V) : Bool :=
  match g e.1 with
  | some nv => decide (e.2 = nv)
  | none => false

/-- Source `_MultiDict.__eq__`: `NotImplemented` (here `none`) for a
non-mapping; element-wise comparison of the `_items` lists for any family
member; otherwise the scan of all of `self.items()` against `other.get`. -/
def mdEq {K V : Type} [DecidableEq K] [DecidableEq V] (self : MD K V) :
    Operand K V → Option Bool
  | .md other => some (decide (self.entries = other.entries))
  | .mapping g => some (self.entries.all (mappingGetCheck g))
  | .notMapping => none

/-- Source `_MultiDict.__init__` given a sequence of (length-2) pairs:
start from a fresh empty list and `_fill` (extend) it with the pairs. -/
def mdInitPairs {K V : Type} (pairs : List (K × V)) : List (K × V) :=
  ([] : List (K × V)) ++ pairs

/-- Source `_MultiDict.copy`: `cls(self.items())` — construct a new plain
map from the all-entries items view of the current storage. -/
def mdCopy {K V : Type} [DecidableEq K] (items : List (K × V)) : List (K × V) :=
  mdInitPairs (itemsIter (mkView items true) items)

/- Character-level facts about the ASCII fold, needed for the
case-insensitive lookup claims. -/

theorem toNat_ofNat_of_valid {n : Nat} (h : n.isValidChar) : (Char.ofNat n).toNat = n := by
  simp [Char.ofNat, dif_pos h, Char.ofNatAux, Char.toNat, UInt32.toNat]

theorem char_ofNat_toNat (c : Char) : Char.ofNat c.toNat = c := by
  apply Char.eq_of_val_eq
  have h : c.toNat.isValidChar := by
    have := c.valid
    rcases this with h | h
    · exact Or.inl h
    · exact Or.inr h
  simp [Char.ofNat, dif_pos h, Char.ofNatAux]
  apply UInt32.eq_of_toBitVec_eq
  apply BitVec.eq_of_toNat_eq
  simp [Char.toNat, UInt32.toNat]

theorem char_upper_upper (c : Char) : Char.toUpper (Char.toUpper c) = Char.toUpper c := by
  unfold Char.toUpper
  by_cases h : 97 ≤ c.toNat ∧ c.toNat ≤ 122
  · rw [if_pos h]
    have hv : (c.toNat - 32).isValidChar := by
      left; omega
    rw [toNat_ofNat_of_valid hv]
    rw [if_neg (by omega)]
  · rw [if_neg h, if_neg h]

theorem char_upper_lower (c : Char) : Char.toUpper (Char.toLower c) = Char.toUpper c := by
  unfold Char.toUpper Char.toLower
  by_cases h : 65 ≤ c.toNat ∧ c.toNat ≤ 90
  · rw [if_pos h]
    have hv : (c.toNat + 32).isValidChar := by
      left; omega
    rw [toNat_ofNat_of_valid hv]
    rw [if_pos (by omega), if_neg (by omega)]
    have h32 : c.toNat + 32 - 32 = c.toNat := by omega
    rw [h32, char_ofNat_toNat]
  · rw [if_neg h]

theorem upper_upper (s : String) : upper (upper s) = upper s := by
  simp only [upper, List.map_map]
  congr 1
  apply List.map_congr_left
  intro c _
  exact char_upper_upper c

theorem upper_lower (s : String) : upper (lower s) = upper s := by
  simp only [upper, lower, List.map_map]
  congr 1
  apply List.map_congr_left
  intro c _
  exact char_upper_lower c

/- Helper lemmas about the deletion loop and the getall comprehension. -/

theorem delAll_eq {K V : Type} [DecidableEq K] (key : K) (st : List (K × V)) :
    delAll key st =
      (st.filter (fun e => decide (e.1 ≠ key)), st.any (fun e => decide (e.1 = key))) := by
  induction st with
  | nil => rfl
  | cons e rest ih =>
    simp only [delAll, ih, List.filter_cons, List.any_cons]
    by_cases h : e.1 = key
    · simp [h]
    · simp [h]

theorem getallList_append {K V : Type} [DecidableEq K] (a b : List (K × V)) (key : K) :
    getallList (a ++ b) key = getallList a key ++ getallList b key := by
  simp [getallList]

theorem getallList_filter_ne {K V : Type} [DecidableEq K] (st : List (K × V)) (key : K) :
    getallList (st.filter (fun e => decide (e.1 ≠ key))) key = [] := by
  unfold getallList
  rw [List.filter_filter]
  have h : st.filter (fun e => decide (e.1 = key) && decide (e.1 ≠ key)) = [] := by
    apply List.filter_eq_nil_iff.mpr
    intro e _
    by_cases h : e.1 = key <;> simp [h]
  rw [h]
  rfl

theorem getallList_setitem {K V : Type} [DecidableEq K]
    (st : List (K × V)) (k : K) (v : V) :
    getallList (setitem st k v) k = [v] := by
  unfold setitem
  rw [delAll_eq]
  rw [getallList_append, getallList_filter_ne]
  simp [getallList]

theorem mappingGetCheck_eq_true {K V : Type} [DecidableEq V]
    (g : K → Option V) (e : K × V) :
    mappingGetCheck g e = true ↔ g e.1 = some e.2 := by
  unfold mappingGetCheck
  cases hg : g e.1 with
  | none => simp
  | some nv => simp [eq_comm]

/-- C6: the indexed assignment `m[k] = v` never fails (`setitem` is total by
construction), removes every pre-existing entry whose key matches `k`,
appends the single entry `(k, v)` at the end, afterwards `m.getall(k)`
returns exactly `[v]`, and the entries for all other keys keep their
relative order.  The last conjunct restates the getall fact for the
case-insensitive mutable class, whose `__setitem__` and `getall` both fold
the key. -/
theorem setitem_replaces_all {K V : Type} [DecidableEq K]
    (st : List (K × V)) (k : K) (v : V)
    (stS : List (String × V)) (kS : String) (vS : V) :
    setitem st k v = st.filter (fun e => decide (e.1 ≠ k)) ++ [(k, v)] ∧
    getallList (setitem st k v) k = [v] ∧
    (setitem st k v).filter (fun e => decide (e.1 ≠ k)) =
      st.filter (fun e => decide (e.1 ≠ k)) ∧
    ciGetall (ciSetitem stS kS vS) kS = some [vS] := by
  refine ⟨?_, getallList_setitem st k v, ?_, ?_⟩
  · unfold setitem
    rw [delAll_eq]
  · unfold setitem
    rw [delAll_eq]
    simp only [List.filter_append, List.filter_filter]
    simp
  · unfold ciGetall ciSetitem getall
    rw [getallList_setitem]

/-- C7: the indexed deletion `del m[k]` removes every entry whose key
matches `k` while keeping the remaining entries in relative order (the
result is a sublist of the old storage); when no entry matches it raises
`KeyError` (`none`) and the deletion loop has left the storage exactly as
it was. -/
theorem delitem_spec {K V : Type} [DecidableEq K] (st : List (K × V)) (k : K) :
    delitem st k =
      (if st.any (fun e => decide (e.1 = k)) then
        some (st.filter (fun e => decide (e.1 ≠ k)))
      else none) ∧
    (delAll k st).1 =
      (if st.any (fun e => decide (e.1 = k)) then
        st.filter (fun e => decide (e.1 ≠ k))
      else st) ∧
    List.Sublist (st.filter (fun e => decide (e.1 ≠ k))) st := by
  refine ⟨?_, ?_, List.filter_sublist st⟩
  · unfold delitem
    rw [delAll_eq]
  · rw [delAll_eq]
    cases ha : st.any (fun e => decide (e.1 = k)) with
    | true => simp
    | false =>
      simp only [Bool.false_eq_true, if_false]
      apply List.filter_eq_self.mpr
      intro e he
      have := (List.any_eq_false.mp ha) e he
      simpa using this

/-- C8: on a case-insensitive map, `getall` applied to `k`, `k.upper()` and
`k.lower()` all agree — the query key is folded before the lookup and the
ASCII fold is idempotent.  The last conjunct records the storage half of
the claim: the case-insensitive `_fill` stores every key already folded. -/
theorem ci_getall_fold {V : Type} (st : List (String × V)) (k : String)
    (pairs : List (String × V)) :
    ciGetall st k = ciGetall st (upper k) ∧
    ciGetall st k = ciGetall st (lower k) ∧
    allFolded (ciFill pairs) = true := by
  refine ⟨?_, ?_, ?_⟩
  · unfold ciGetall
    rw [upper_upper]
  · unfold ciGetall
    rw [upper_lower]
  · simp only [allFolded, ciFill, List.all_eq_true, List.mem_map]
    rintro e ⟨p, _, rfl⟩
    simpa using (upper_upper p.1).symm

/-- C9: for a plain map, constructing a new map of the same class from
`m.items()` (the all-entries items view) reproduces the entry storage
exactly, so `m.copy() == m` under the family branch of `__eq__`. -/
theorem copy_roundtrip {K V : Type} [DecidableEq K] [DecidableEq V]
    (st : List (K × V)) :
    mdCopy st = st ∧
    mdEq (MD.mk false (mdCopy st)) (Operand.md (MD.mk false st)) = some true := by
  have h : mdCopy st = st := rfl
  exact ⟨h, by simp [mdEq, h]⟩

/-- C10: between two members of the multidict family, `__eq__` compares the
stored entry sequences element-wise and ignores the concrete class — in
particular a case-insensitive map and a plain map holding identical stored
entries compare equal, and the first-value mapping scan is never consulted. -/
theorem family_eq_entrywise {K V : Type} [DecidableEq K] [DecidableEq V]
    (m1 m2 : MD K V) :
    mdEq m1 (Operand.md m2) = some (decide (m1.entries = m2.entries)) ∧
    (mdEq m1 (Operand.md m2) = some true ↔ m1.entries = m2.entries) ∧
    mdEq (MD.mk true m1.entries) (Operand.md (MD.mk false m1.entries)) = some true := by
  refine ⟨rfl, ?_, by simp [mdEq]⟩
  simp [mdEq]

/-- Witness for C10 at concrete maps: a case-insensitive map and a plain
map with the same stored (folded) entries compare equal. -/
theorem family_eq_entrywise_witness :
    mdEq (MD.mk true [(("A" : String), (1 : Nat))])
      (Operand.md (MD.mk false [("A", 1)])) = some true :=
  (family_eq_entrywise (MD.mk true [(("A" : String), (1 : Nat))])
    (MD.mk false [("A", 1)])).2.2

/-- C1 counterexample: a keys view taken with `getall=True` from a map
holding one entry reports length 1; after `m.add("b", 2)` the same view
object reports length 2, and an items view taken at the same moment now
iterates the new entry as well — `_ViewBase.__init__` aliases the map's
live `_items` list in the `getall=True` branch, so later mutation does
change an already-created view. -/
theorem view_not_snapshot_counterexample :
    viewLen (mkView [(("a" : String), (1 : Nat))] true) [("a", 1)] = 1 ∧
    viewLen (mkView [(("a" : String), (1 : Nat))] true) (add [("a", 1)] "b" 2) = 2 ∧
    itemsIter (mkView [(("a" : String), (1 : Nat))] true) (add [("a", 1)] "b" 2) ≠
      itemsIter (mkView [(("a" : String), (1 : Nat))] true) [("a", 1)] := by
  decide

/-- C1 amended: a view created with `getall=False` owns private filtered
copies, so every observation on it (length, items/values iteration and
containment) is unchanged by any later mutation of the storage; the keys
view's key sequence is a fresh list under either flag, so its iteration is
likewise fixed at creation; but a view created with `getall=True` shares
the live storage, so its length and its items iteration track the current
storage. -/
theorem view_snapshot_amended {K V : Type} [DecidableEq K] [DecidableEq V]
    (s sNew : List (K × V)) (item : K × V) (x : V) :
    viewLen (mkView s false) sNew = viewLen (mkView s false) s ∧
    itemsIter (mkView s false) sNew = itemsIter (mkView s false) s ∧
    itemsContains (mkView s false) sNew item = itemsContains (mkView s false) s item ∧
    valuesIter (mkView s false) sNew = valuesIter (mkView s false) s ∧
    valuesContains (mkView s false) sNew x = valuesContains (mkView s false) s x ∧
    keysIter (mkView s true) = s.map Prod.fst ∧
    keysIter (mkView s false) = (filterFirst ([] : List K) s).map Prod.fst ∧
    viewLen (mkView s true) sNew = sNew.length ∧
    itemsIter (mkView s true) sNew = sNew := by
  refine ⟨?_, ?_, ?_, ?_, ?_, ?_, ?_, ?_, ?_⟩ <;>
    simp [mkView, viewLen, itemsIter, itemsContains, valuesIter, valuesContains,
      keysIter, ItemsRef.deref]

/-- C2 counterexample: iterating a map holding the duplicate key "a" yields
"a" twice (iteration is `iter(self.keys())` and `keys()` defaults to
`getall=True`), its length equals `len(m)` rather than being strictly
smaller, and no key is yielded exactly once. -/
theorem iter_duplicates_counterexample :
    mdIter [(("a" : String), (1 : Nat)), ("a", 2)] = ["a", "a"] ∧
    (mdIter [(("a" : String), (1 : Nat)), ("a", 2)]).count "a" = 2 ∧
    ¬ (mdIter [(("a" : String), (1 : Nat)), ("a", 2)]).length <
        mdLen [(("a" : String), (1 : Nat)), ("a", 2)] := by
  decide

/-- C2 amended: iterating the map yields every key occurrence of the entry
storage in order, duplicates included, so the iteration always has exactly
`len(m)` elements. -/
theorem iter_all_keys {K V : Type} [DecidableEq K] (st : List (K × V)) :
    mdIter st = st.map Prod.fst ∧ (mdIter st).length = mdLen st := by
  constructor
  · rfl
  · simp [mdIter, keysIter, mkView, mdLen]

/-- C3 counterexample: for the map [("a", 1), ("a", 2)] and an outside
mapping whose `get` returns 1 for "a", every key of the map (all are "a")
gets back exactly the map's first stored value, yet `__eq__` answers
False — the scan runs over all of `self.items()`, so the duplicate
("a", 2) does affect the result. -/
theorem eq_mapping_counterexample :
    mdEq (MD.mk false [(("a" : String), (1 : Nat)), ("a", 2)])
        (Operand.mapping (fun k => if k = "a" then some 1 else none)) = some false ∧
    (fun k => if k = "a" then some (1 : Nat) else none) "a" =
      getone [(("a" : String), (1 : Nat)), ("a", 2)] "a" ∧
    (mdIter [(("a" : String), (1 : Nat)), ("a", 2)]).all
      (fun k => decide (k = "a")) = true := by
  decide

/-- C3 amended: against a mapping from outside the family, `__eq__` answers
True iff every stored entry (k, v) — all occurrences, not only the first
value per key — satisfies `other.get(k) == v`. -/
theorem eq_mapping_all_entries {K V : Type} [DecidableEq K] [DecidableEq V]
    (ci : Bool) (entries : List (K × V)) (g : K → Option V) :
    mdEq (MD.mk ci entries) (Operand.mapping g) = some true ↔
      ∀ e ∈ entries, g e.1 = some e.2 := by
  simp [mdEq, List.all_eq_true, mappingGetCheck_eq_true]

/-- Witness for C3's amended statement at a concrete map and mapping. -/
theorem eq_mapping_all_entries_witness :
    mdEq (MD.mk false [(("a" : String), (1 : Nat)), ("a", 2)])
      (Operand.mapping (fun k => if k = "a" then some 2 else none)) = some false ∧
    mdEq (MD.mk false [(("b" : String), (5 : Nat))])
      (Operand.mapping (fun k => if k = "b" then some 5 else none)) = some true :=
  ⟨by decide,
    (eq_mapping_all_entries false [(("b" : String), (5 : Nat))]
      (fun k => if k = "b" then some 5 else none)).mpr (by decide)⟩

/-- C4, evaluated at the failing input: `setdefault` is inherited by the
case-insensitive mutable class from `MutableMultiDictMixin` without any key
folding and it appends directly to `self._items`, bypassing the overridden
`add`; on an empty case-insensitive map `setdefault("a", 1)` therefore
stores the raw lower-case key "a", breaking the folded-storage invariant,
and on storage [("A", 1)] the raw query "a" fails to match the folded key
"A", so a duplicate raw entry is appended as well. -/
theorem ci_setdefault_breaks_folding :
    setdefault ([] : List (String × Nat)) "a" 1 = ([("a", 1)], 1) ∧
    allFolded [(("a" : String), (1 : Nat))] = false ∧
    upper "a" = "A" ∧
    setdefault [(("A" : String), (1 : Nat))] "a" 2 = ([("A", 1), ("a", 2)], 2) := by
  decide

/-- C5 counterexample: `extend` over the sequence [(0, 1), (2, 3, 4)] fails
on the second item with the tuple-unpacking ValueError, but the pair (0, 1)
preceding the offending item has already been added — the storage is not
what it was before the call. -/
theorem extend_partial_mutation_counterexample :
    extendSeq ([] : List (Nat × Nat)) [[0, 1], [2, 3, 4]] =
      ([(0, 1)], some PyErr.valueError) ∧
    ([(0, 1)] : List (Nat × Nat)) ≠ [] := by
  decide

/-- C5 amended: `extend` over a single positional sequence whose first
offending item `bad` is not a length-2 pair raises the tuple-unpacking
ValueError (not the TypeError that construction's validation raises), and
when it does, every pair preceding the offending item has already been
added to the storage. -/
theorem extend_adds_prefix_then_fails {α : Type} (st : List (α × α))
    (pre : List (α × α)) (bad : List α) (rest : List (List α))
    (h : bad.length ≠ 2) :
    extendSeq st (pre.map (fun e => [e.1, e.2]) ++ bad :: rest) =
      (st ++ pre, some PyErr.valueError) := by
  induction pre generalizing st with
  | nil =>
    simp only [List.map_nil, List.nil_append]
    match bad, h with
    | [], _ => simp [extendSeq]
    | [x], _ => simp [extendSeq]
    | [x, y], h => exact absurd rfl h
    | x :: y :: z :: t, _ => simp [extendSeq]
  | cons e pre ih =>
    simp only [List.map_cons, List.cons_append, extendSeq, add, List.append_eq]
    rw [ih]
    simp

/-- Witness for C5's amended statement: one good pair, then a length-1
offending item. -/
theorem extend_adds_prefix_then_fails_witness :
    (([3] : List Nat).length ≠ 2) ∧
    extendSeq ([] : List (Nat × Nat))
        ([((0 : Nat), (1 : Nat))].map (fun e => [e.1, e.2]) ++ [3] :: []) =
      ([(0, 1)], some PyErr.valueError) :=
  ⟨by decide, extend_adds_prefix_then_fails [] [((0 : Nat), (1 : Nat))] [3] [] (by decide)⟩

end Multidict
